import Mathlib

/-!
Shallow embedding of `JackknifeAnalyzer<K, T>`
(src/include/JackknifeAnalyzer.hh, src/include/detail/JackknifeAnalyzer.tcc).

Modelling choices:
* The numeric type `T` (a C++ arithmetic type, typically `double`) is modelled
  as `ℚ` — exact arithmetic in place of floating point; `sqrt` (used only in
  `sigma` / `jackknife`) is modelled as `Real.sqrt` on the cast of the exact
  radicand.
* The two `std::map` members are modelled as functions `K → Option _`.
* A C++ member function that can `throw` is modelled as returning
  `Option String × JKState K`: the first component is the exception message
  (if any), the second the state of the object when the function returns or
  the exception propagates.  This keeps partial mutations visible: an
  exception thrown after a map insertion leaves the insertion in place.
* `std::size_t` values (`N_bins`, `bin_size`, vector sizes) are modelled as
  `ℕ`; `N_bins - 1` in `sigma`/`jackknife` is `ℕ` (truncated) subtraction,
  which agrees with `size_t` arithmetic whenever `N_bins ≥ 1`.
-/

namespace JackknifeAnalyzer

/-- The data members of `JackknifeAnalyzer<K, T>` with `T` modelled as `ℚ`:
`N_bins` (0 = not yet set), the construction-time `bin_size`
(`bin_omit_point_num`), and the two maps `Xs_reduced_samples`, `Xs_mu`. -/
structure JKState (K : Type) where
  N_bins : ℕ
  bin_size : ℕ
  Xs_reduced_samples : K → Option (List ℚ)
  Xs_mu : K → Option ℚ

variable {K V : Type} [DecidableEq K]

/-- `m[k] = v` on a `std::map` modelled as a function. -/
def mapInsert (m : K → Option V) (k : K) (v : V) : K → Option V :=
  fun q => if q = k then some v else m q

/-- `m.erase(k)` on a `std::map` modelled as a function. -/
def mapErase (m : K → Option V) (k : K) : K → Option V :=
  fun q => if q = k then none else m q

/-- The default constructor `JackknifeAnalyzer(bin_size)`: empty maps,
`N_bins = 0` (unset). -/
def emptyJK (bs : ℕ) : JKState K :=
  ⟨0, bs, fun _ => none, fun _ => none⟩

/-- `init_or_verify_N(Xsamples, binned)` (JackknifeAnalyzer.tcc:155-168).
Returns the value `N_bins` holds after the call, or the exception message. -/
def init_or_verify_N (s : JKState K) (Xsamples : List ℚ) (binned : Bool) :
    Except String ℕ :=
  let num_bins := Xsamples.length / (if binned then 1 else s.bin_size)
  if s.N_bins = 0 then
    if num_bins > 1 then .ok num_bins
    else .error "trying to add dataset with less than 2 bins."
  else if num_bins ≠ s.N_bins then
    .error "trying to add dataset with different number of bins than already existing ones."
  else .ok s.N_bins

/-- The accumulation loop `for (T d : Xsamples) sum_samples += d;`. -/
def sumLoop (xs : List ℚ) : ℚ :=
  xs.foldl (fun a d => a + d) 0

/-- The inner loop of `resample`: starting from `sum_samples`, subtract
`Xsamples[i]` for `i` in `[b*bin_size, (b+1)*bin_size)`. -/
def binLoop (xs : List ℚ) (b bs : ℕ) (sum_samples : ℚ) : ℚ :=
  (List.range' (b * bs) bs).foldl (fun a i => a - xs.getD i 0) sum_samples

/-- The local `red_samples` vector of `resample`: one `binLoop` result per
bin, divided by `size_t` subtraction `Xsamples.size() - bin_size` cast to
`T`. -/
def red_samples (xs : List ℚ) (bs N : ℕ) : List ℚ :=
  (List.range N).map fun b =>
    binLoop xs b bs (sumLoop xs) / ((xs.length - bs : ℕ) : ℚ)

/-- The state `resample` leaves behind on the success path, with `N` the
value `init_or_verify_N` returned. -/
def resampleState (s : JKState K) (Xkey : K) (Xsamples : List ℚ) (N : ℕ) :
    JKState K :=
  { s with
    N_bins := N
    Xs_mu := mapInsert s.Xs_mu Xkey (sumLoop Xsamples / (Xsamples.length : ℚ))
    Xs_reduced_samples := mapInsert s.Xs_reduced_samples Xkey
      (red_samples Xsamples s.bin_size N) }

/-- `resample(Xkey, Xsamples)` (JackknifeAnalyzer.tcc:40-63). -/
def resample (s : JKState K) (Xkey : K) (Xsamples : List ℚ) :
    Option String × JKState K :=
  if (s.Xs_reduced_samples Xkey).isNone && (s.Xs_mu Xkey).isNone then
    match init_or_verify_N s Xsamples false with
    | .error e => (some e, s)
    | .ok N => (none, resampleState s Xkey Xsamples N)
  else (none, s)

/-- The state `add_resampled` leaves behind on the success path. -/
def addResampledState (s : JKState K) (Xkey : K) (Xjackknife_samples : List ℚ)
    (mu_X : ℚ) (N : ℕ) : JKState K :=
  { s with
    N_bins := N
    Xs_reduced_samples := mapInsert s.Xs_reduced_samples Xkey Xjackknife_samples
    Xs_mu := mapInsert s.Xs_mu Xkey mu_X }

/-- `add_resampled(Xkey, Xjackknife_samples, mu_X)` (JackknifeAnalyzer.tcc:29-37). -/
def add_resampled (s : JKState K) (Xkey : K) (Xjackknife_samples : List ℚ)
    (mu_X : ℚ) : Option String × JKState K :=
  if (s.Xs_reduced_samples Xkey).isNone && (s.Xs_mu Xkey).isNone then
    match init_or_verify_N s Xjackknife_samples true with
    | .error e => (some e, s)
    | .ok N => (none, addResampledState s Xkey Xjackknife_samples mu_X N)
  else (none, s)

/-- The loop `for (const K& key : F_arg_keys) args_mu.push_back(Xs_mu.at(key));`:
collects the means of the argument keys in order, throwing at the first
missing key. -/
def collect_mus (s : JKState K) : List K → Except String (List ℚ)
  | [] => .ok []
  | k :: ks =>
    match s.Xs_mu k with
    | none => .error "map::at"
    | some m => (collect_mus s ks).map fun l => m :: l

/-- The inner loop of `add_function`'s replicate computation: collects
`Xs_reduced_samples.at(key).at(i)` for each argument key in order. -/
def collect_red_row (s : JKState K) (i : ℕ) : List K → Except String (List ℚ)
  | [] => .ok []
  | k :: ks =>
    match s.Xs_reduced_samples k with
    | none => .error "map::at"
    | some rs =>
      match rs.get? i with
      | none => .error "vector::at"
      | some v => (collect_red_row s i ks).map fun l => v :: l

/-- The outer loop of `add_function`'s replicate computation: for each `i`
in the given index list (in order), push `F` applied to row `i`. -/
def build_rows (s : JKState K) (F : List ℚ → ℚ) (args : List K) :
    List ℕ → Except String (List ℚ)
  | [] => .ok []
  | i :: is =>
    match collect_red_row s i args with
    | .error e => .error e
    | .ok row => (build_rows s F args is).map fun l => F row :: l

/-- The replicate list the composition loop builds: for `i < N`, `F`
applied to the row of `Xs_reduced_samples.at(key).at(i)` values. -/
def F_jackknife_samples (s : JKState K) (F : List ℚ → ℚ) (args : List K)
    (N : ℕ) : List ℚ :=
  (List.range N).map fun i =>
    F (args.map fun a => ((s.Xs_reduced_samples a).getD []).getD i 0)

/-- The state the vector `add_function` leaves behind on the success path. -/
def addFunctionState (s : JKState K) (Fkey : K) (F : List ℚ → ℚ)
    (args : List K) : JKState K :=
  { s with
    Xs_mu := mapInsert s.Xs_mu Fkey (F (args.map fun a => (s.Xs_mu a).getD 0))
    Xs_reduced_samples := mapInsert s.Xs_reduced_samples Fkey
      (F_jackknife_samples s F args s.N_bins) }

/-- `add_function(Fkey, F, F_arg_keys)` (vector overload,
JackknifeAnalyzer.tcc:66-86).  Note that `Xs_mu[Fkey]` is assigned before
the replicate loop runs, so an exception in the replicate loop leaves the
mean inserted but no replicate entry. -/
def add_function (s : JKState K) (Fkey : K) (F : List ℚ → ℚ)
    (F_arg_keys : List K) : Option String × JKState K :=
  if (s.Xs_reduced_samples Fkey).isNone && (s.Xs_mu Fkey).isNone then
    match collect_mus s F_arg_keys with
    | .error e => (some e, s)
    | .ok args_mu =>
      let s1 : JKState K := { s with Xs_mu := mapInsert s.Xs_mu Fkey (F args_mu) }
      match build_rows s1 F F_arg_keys (List.range s.N_bins) with
      | .error e => (some e, s1)
      | .ok rows =>
        (none, { s1 with Xs_reduced_samples := mapInsert s1.Xs_reduced_samples Fkey rows })
  else (none, s)

/-- The replicate list of the variadic overload: for `i < N_bins`, `F`
applied directly to the `n` looked-up replicate values. -/
def fix_rows (s : JKState K) {n : ℕ} (F : (Fin n → ℚ) → ℚ)
    (ks : Fin n → K) : List ℚ :=
  (List.range s.N_bins).map fun i =>
    F fun j => ((s.Xs_reduced_samples (ks j)).getD []).getD i 0

/-- The state the variadic `add_function` leaves behind on the success
path. -/
def addFunctionFixState (s : JKState K) (Fkey : K) {n : ℕ}
    (F : (Fin n → ℚ) → ℚ) (ks : Fin n → K) : JKState K :=
  { s with
    Xs_mu := mapInsert s.Xs_mu Fkey (F fun j => (s.Xs_mu (ks j)).getD 0)
    Xs_reduced_samples := mapInsert s.Xs_reduced_samples Fkey (fix_rows s F ks) }

/-- `add_function(Fkey, F, F_arg_keys...)` (variadic overload,
JackknifeAnalyzer.tcc:88-105), at arity `n`: the `n` keys are a tuple
`ks : Fin n → K` and `F` consumes the `n` looked-up values directly.
The pack expansions `Xs_mu.at(F_arg_keys)...` and
`Xs_reduced_samples.at(F_arg_keys).at(i)...` are modelled by guards
requiring every lookup to succeed (the C++ throws from inside the
expansion otherwise; the thrown message order is unspecified there). -/
def add_function_fix (s : JKState K) (Fkey : K) {n : ℕ}
    (F : (Fin n → ℚ) → ℚ) (ks : Fin n → K) : Option String × JKState K :=
  if (s.Xs_reduced_samples Fkey).isNone && (s.Xs_mu Fkey).isNone then
    if hmu : ∀ j : Fin n, (s.Xs_mu (ks j)).isSome then
      let s1 : JKState K :=
        { s with Xs_mu := mapInsert s.Xs_mu Fkey (F fun j => (s.Xs_mu (ks j)).getD 0) }
      if hred : ∀ (_ : Fin s.N_bins) (j : Fin n),
          (s.Xs_reduced_samples (ks j)).isSome ∧
            s.N_bins ≤ ((s.Xs_reduced_samples (ks j)).getD []).length then
        (none, addFunctionFixState s Fkey F ks)
      else (some "vector::at", s1)
    else (some "map::at", s)
  else (none, s)

/-- `remove(Xkey)` (JackknifeAnalyzer.tcc:107-111). -/
def remove (s : JKState K) (Xkey : K) : JKState K :=
  { s with
    Xs_mu := mapErase s.Xs_mu Xkey
    Xs_reduced_samples := mapErase s.Xs_reduced_samples Xkey }

/-- `mu(Xkey)` (JackknifeAnalyzer.tcc:121-124): `Xs_mu.at(Xkey)`. -/
def mu (s : JKState K) (Xkey : K) : Except String ℚ :=
  match s.Xs_mu Xkey with
  | none => .error "map::at"
  | some m => .ok m

/-- `samples(Xkey)` (JackknifeAnalyzer.tcc:148-151):
`Xs_reduced_samples.at(Xkey)`. -/
def samples (s : JKState K) (Xkey : K) : Except String (List ℚ) :=
  match s.Xs_reduced_samples Xkey with
  | none => .error "map::at"
  | some rs => .ok rs

/-- The accumulation loop of `sigma`:
`for (const T& d : Xs_reduced_samples.at(Xkey)) sigma += pow(d - Xs_mu.at(Xkey), 2);`.
`Xs_mu.at(Xkey)` is looked up inside the loop body, so it throws only when
the replicate list is nonempty. -/
def sigmaLoop (mu? : Option ℚ) : List ℚ → ℚ → Except String ℚ
  | [], acc => .ok acc
  | d :: ds, acc =>
    match mu? with
    | none => .error "map::at"
    | some m => sigmaLoop mu? ds (acc + (d - m) ^ 2)

/-- `sigma(Xkey)` (JackknifeAnalyzer.tcc:126-132). -/
noncomputable def sigma (s : JKState K) (Xkey : K) : Except String ℝ :=
  match s.Xs_reduced_samples Xkey with
  | none => .error "map::at"
  | some rs =>
    (sigmaLoop (s.Xs_mu Xkey) rs 0).map fun acc =>
      Real.sqrt (((((s.N_bins - 1 : ℕ) : ℚ) / (s.N_bins : ℚ)) * acc : ℚ) : ℝ)

/-- `jackknife(Xkey, mu_X, sigma_X)` (JackknifeAnalyzer.tcc:134-146):
`some (mu_X, sigma_X)` models `return true` with the two reference
parameters assigned; `none` models `return false` with them untouched. -/
noncomputable def jackknife (s : JKState K) (Xkey : K) : Option (ℚ × ℝ) :=
  if (s.Xs_reduced_samples Xkey).isSome && (s.Xs_mu Xkey).isSome then
    let mu_X := (s.Xs_mu Xkey).getD 0
    let acc := ((s.Xs_reduced_samples Xkey).getD []).foldl
      (fun a d => a + (d - mu_X) ^ 2) 0
    some (mu_X,
      Real.sqrt (((((s.N_bins - 1 : ℕ) : ℚ) / (s.N_bins : ℚ)) * acc : ℚ) : ℝ))
  else none

/-- States reachable from a freshly constructed analyzer by any sequence of
operations (raw registration, resampled registration, composition,
removal), discarding any exception. -/
inductive Reachable : JKState K → Prop
  | init (bs : ℕ) : Reachable (emptyJK bs)
  | raw (s : JKState K) (k : K) (xs : List ℚ) :
      Reachable s → Reachable (resample s k xs).2
  | res (s : JKState K) (k : K) (rs : List ℚ) (m : ℚ) :
      Reachable s → Reachable (add_resampled s k rs m).2
  | comp (s : JKState K) (k : K) (F : List ℚ → ℚ) (args : List K) :
      Reachable s → Reachable (add_function s k F args).2
  | rem (s : JKState K) (k : K) : Reachable s → Reachable (remove s k)

/-- States reachable when every `add_function` call supplies at least one
argument key. -/
inductive ReachablePos : JKState K → Prop
  | init (bs : ℕ) : ReachablePos (emptyJK bs)
  | raw (s : JKState K) (k : K) (xs : List ℚ) :
      ReachablePos s → ReachablePos (resample s k xs).2
  | res (s : JKState K) (k : K) (rs : List ℚ) (m : ℚ) :
      ReachablePos s → ReachablePos (add_resampled s k rs m).2
  | comp (s : JKState K) (k : K) (F : List ℚ → ℚ) (args : List K) :
      args ≠ [] → ReachablePos s → ReachablePos (add_function s k F args).2
  | rem (s : JKState K) (k : K) : ReachablePos s → ReachablePos (remove s k)

/-- The invariant claimed in the spec: every stored key has both a mean and
a replicate series of length `N_bins`, or neither. -/
def ClaimInv (s : JKState K) : Prop :=
  ∀ k, ((s.Xs_mu k).isSome ↔ (s.Xs_reduced_samples k).isSome) ∧
    ∀ rs, s.Xs_reduced_samples k = some rs → rs.length = s.N_bins

/-- The strengthened induction invariant: when `N_bins` is unset the store
is empty, and the claimed invariant holds. -/
def InvS (s : JKState K) : Prop :=
  (s.N_bins = 0 → ∀ k, s.Xs_mu k = none ∧ s.Xs_reduced_samples k = none) ∧
    ClaimInv s

/-- The concrete raw series of spec §8, scenario 6. -/
def demoXs : List ℚ := [1, 2, 3, 4, 5, 6]

/-- A store with the contents that resampling `demoXs` under key 0 at bin
size 1 produces (`N_bins = 6`, mean `7/2`, replicates of spec §8
scenario 6), written as an explicit record so its fields evaluate by
`rfl`. -/
def demoS : JKState ℕ :=
  ⟨6, 1, mapInsert (fun _ => none) 0 [4, 19/5, 18/5, 17/5, 16/5, 3],
    mapInsert (fun _ => none) 0 (7/2)⟩

/-- A fresh store after `add_function` over an empty argument-key list:
key 0 gets mean `0` and an empty replicate series while `N_bins` stays 0. -/
def cex1 : JKState ℕ := (add_function (emptyJK 1) 0 (fun _ => 0) []).2

/-- `cex1` after registering two raw samples under key 1: `N_bins` becomes
2 while key 0 still carries its empty replicate series. -/
def cex2 : JKState ℕ := (resample cex1 1 [1, 2]).2

/-! ### Helper lemmas about the loops and collectors -/

theorem foldl_add_f_eq (f : ℚ → ℚ) (l : List ℚ) (a : ℚ) :
    l.foldl (fun x d => x + f d) a = a + (l.map f).sum := by
  induction l generalizing a with
  | nil => simp
  | cons d ds ih => simp [List.foldl_cons, ih, add_assoc]

theorem foldl_add_eq (xs : List ℚ) (a : ℚ) :
    xs.foldl (fun x d => x + d) a = a + xs.sum := by
  induction xs generalizing a with
  | nil => simp
  | cons d ds ih => simp [List.foldl_cons, ih, add_assoc]

theorem sumLoop_eq_sum (xs : List ℚ) : sumLoop xs = xs.sum := by
  simp [sumLoop, foldl_add_eq]

theorem foldl_sub_eq (l : List ℕ) (f : ℕ → ℚ) (a : ℚ) :
    l.foldl (fun x i => x - f i) a = a - (l.map f).sum := by
  induction l generalizing a with
  | nil => simp
  | cons i is ih => simp [List.foldl_cons, ih, sub_sub]

theorem binLoop_eq (xs : List ℚ) (b bs : ℕ) (S : ℚ) :
    binLoop xs b bs S
      = S - ((List.range bs).map fun j => xs.getD (b * bs + j) 0).sum := by
  rw [binLoop, foldl_sub_eq, List.range'_eq_map_range, List.map_map]
  rfl

theorem sigmaLoop_some (m : ℚ) (rs : List ℚ) (acc : ℚ) :
    sigmaLoop (some m) rs acc = .ok (acc + (rs.map fun d => (d - m) ^ 2).sum) := by
  induction rs generalizing acc with
  | nil => simp [sigmaLoop]
  | cons d ds ih => simp [sigmaLoop, ih, add_assoc]

theorem collect_mus_ok (s : JKState K) (args : List K)
    (h : ∀ k ∈ args, (s.Xs_mu k).isSome) :
    collect_mus s args = .ok (args.map fun k => (s.Xs_mu k).getD 0) := by
  induction args with
  | nil => rfl
  | cons k ks ih =>
    have hk := h k (List.mem_cons_self k ks)
    obtain ⟨m, hm⟩ := Option.isSome_iff_exists.mp hk
    rw [collect_mus, hm, ih fun q hq => h q (List.mem_cons_of_mem k hq)]
    simp [hm, Except.map]

theorem collect_mus_error (s : JKState K) (args : List K)
    (h : ∃ k ∈ args, s.Xs_mu k = none) :
    ∃ e, collect_mus s args = .error e := by
  induction args with
  | nil => simp at h
  | cons k ks ih =>
    obtain ⟨q, hq, hnone⟩ := h
    rcases List.mem_cons.mp hq with rfl | hmem
    · exact ⟨"map::at", by rw [collect_mus, hnone]⟩
    · rw [collect_mus]
      cases hmk : s.Xs_mu k with
      | none => exact ⟨"map::at", rfl⟩
      | some m =>
        obtain ⟨e, he⟩ := ih ⟨q, hmem, hnone⟩
        exact ⟨e, by rw [he]; rfl⟩

theorem collect_red_row_ok (s : JKState K) (i : ℕ) (args : List K)
    (h : ∀ k ∈ args, ∃ rs, s.Xs_reduced_samples k = some rs ∧ i < rs.length) :
    collect_red_row s i args
      = .ok (args.map fun k => ((s.Xs_reduced_samples k).getD []).getD i 0) := by
  induction args with
  | nil => rfl
  | cons k ks ih =>
    obtain ⟨rs, hrs, hlen⟩ := h k (List.mem_cons_self k ks)
    have hget : rs.get? i = some (rs.getD i 0) := by
      rw [List.getD_eq_getElem?_getD, List.get?_eq_getElem?,
        List.getElem?_eq_getElem hlen]
      rfl
    rw [collect_red_row]
    simp only [hrs, hget, ih fun q hq => h q (List.mem_cons_of_mem k hq),
      Except.map, List.map_cons, Option.getD_some]

theorem build_rows_ok (s : JKState K) (F : List ℚ → ℚ) (args : List K)
    (is : List ℕ)
    (h : ∀ k ∈ args, ∃ rs, s.Xs_reduced_samples k = some rs ∧
      ∀ i ∈ is, i < rs.length) :
    build_rows s F args is
      = .ok (is.map fun i =>
          F (args.map fun k => ((s.Xs_reduced_samples k).getD []).getD i 0)) := by
  induction is with
  | nil => rfl
  | cons i js ih =>
    rw [build_rows, collect_red_row_ok s i args fun k hk => by
      obtain ⟨rs, hrs, hlen2⟩ := h k hk
      exact ⟨rs, hrs, hlen2 i (List.mem_cons_self i js)⟩]
    rw [ih fun k hk => by
      obtain ⟨rs, hrs, hl⟩ := h k hk
      exact ⟨rs, hrs, fun j hj => hl j (List.mem_cons_of_mem i hj)⟩]
    rfl

@[simp]
theorem mapInsert_self (m : K → Option V) (k : K) (v : V) :
    mapInsert m k v k = some v := by
  simp [mapInsert]

theorem mapInsert_ne (m : K → Option V) (k q : K) (v : V) (h : q ≠ k) :
    mapInsert m k v q = m q := by
  simp [mapInsert, h]

@[simp]
theorem mapErase_self (m : K → Option V) (k : K) : mapErase m k k = none := by
  simp [mapErase]

theorem mapErase_ne (m : K → Option V) (k q : K) (h : q ≠ k) :
    mapErase m k q = m q := by
  simp [mapErase, h]

@[simp]
theorem red_samples_length (xs : List ℚ) (bs N : ℕ) :
    (red_samples xs bs N).length = N := by
  simp [red_samples]

@[simp]
theorem F_jackknife_samples_length (s : JKState K) (F : List ℚ → ℚ)
    (args : List K) (N : ℕ) : (F_jackknife_samples s F args N).length = N := by
  simp [F_jackknife_samples]

/-! ### Characterizations of `init_or_verify_N` -/

theorem init_unset_ok (s : JKState K) (xs : List ℚ) (binned : Bool)
    (h0 : s.N_bins = 0)
    (hgt : 1 < xs.length / (if binned then 1 else s.bin_size)) :
    init_or_verify_N s xs binned
      = .ok (xs.length / (if binned then 1 else s.bin_size)) := by
  simp [init_or_verify_N, h0, hgt]

theorem init_unset_err (s : JKState K) (xs : List ℚ) (binned : Bool)
    (h0 : s.N_bins = 0)
    (hle : xs.length / (if binned then 1 else s.bin_size) ≤ 1) :
    init_or_verify_N s xs binned
      = .error "trying to add dataset with less than 2 bins." := by
  simp [init_or_verify_N, h0, Nat.not_lt.mpr hle]

theorem init_set_ok (s : JKState K) (xs : List ℚ) (binned : Bool)
    (h0 : s.N_bins ≠ 0)
    (heq : xs.length / (if binned then 1 else s.bin_size) = s.N_bins) :
    init_or_verify_N s xs binned = .ok s.N_bins := by
  simp [init_or_verify_N, h0, heq]

theorem init_set_err (s : JKState K) (xs : List ℚ) (binned : Bool)
    (h0 : s.N_bins ≠ 0)
    (hne : xs.length / (if binned then 1 else s.bin_size) ≠ s.N_bins) :
    init_or_verify_N s xs binned
      = .error "trying to add dataset with different number of bins than already existing ones." := by
  simp [init_or_verify_N, h0, hne]

theorem init_ok_elim (s : JKState K) (xs : List ℚ) (binned : Bool) (N : ℕ)
    (h : init_or_verify_N s xs binned = .ok N) :
    N = xs.length / (if binned then 1 else s.bin_size) ∧
      (s.N_bins = 0 ∧ 2 ≤ N ∨ s.N_bins ≠ 0 ∧ N = s.N_bins) := by
  by_cases h0 : s.N_bins = 0
  · by_cases hgt : 1 < xs.length / (if binned then 1 else s.bin_size)
    · rw [init_unset_ok s xs binned h0 hgt] at h
      cases h
      exact ⟨rfl, Or.inl ⟨h0, hgt⟩⟩
    · rw [init_unset_err s xs binned h0 (Nat.not_lt.mp hgt)] at h
      cases h
  · by_cases heq : xs.length / (if binned then 1 else s.bin_size) = s.N_bins
    · rw [init_set_ok s xs binned h0 heq] at h
      cases h
      exact ⟨heq.symm, Or.inr ⟨h0, rfl⟩⟩
    · rw [init_set_err s xs binned h0 heq] at h
      cases h

/-! ### Characterizations of the mutating operations -/

theorem resample_noop (s : JKState K) (k : K) (xs : List ℚ)
    (h : ¬((s.Xs_reduced_samples k).isNone ∧ (s.Xs_mu k).isNone)) :
    resample s k xs = (none, s) := by
  rw [resample, if_neg]
  simpa using h

theorem resample_err (s : JKState K) (k : K) (xs : List ℚ) (e : String)
    (hr : s.Xs_reduced_samples k = none) (hm : s.Xs_mu k = none)
    (hE : init_or_verify_N s xs false = .error e) :
    resample s k xs = (some e, s) := by
  rw [resample]
  simp [hr, hm, hE]

theorem resample_ok (s : JKState K) (k : K) (xs : List ℚ) (N : ℕ)
    (hr : s.Xs_reduced_samples k = none) (hm : s.Xs_mu k = none)
    (hN : init_or_verify_N s xs false = .ok N) :
    resample s k xs = (none, resampleState s k xs N) := by
  rw [resample]
  simp [hr, hm, hN]

theorem add_resampled_noop (s : JKState K) (k : K) (rs : List ℚ) (m : ℚ)
    (h : ¬((s.Xs_reduced_samples k).isNone ∧ (s.Xs_mu k).isNone)) :
    add_resampled s k rs m = (none, s) := by
  rw [add_resampled, if_neg]
  simpa using h

theorem add_resampled_err (s : JKState K) (k : K) (rs : List ℚ) (m : ℚ)
    (e : String)
    (hr : s.Xs_reduced_samples k = none) (hm : s.Xs_mu k = none)
    (hE : init_or_verify_N s rs true = .error e) :
    add_resampled s k rs m = (some e, s) := by
  rw [add_resampled]
  simp [hr, hm, hE]

theorem add_resampled_ok (s : JKState K) (k : K) (rs : List ℚ) (m : ℚ) (N : ℕ)
    (hr : s.Xs_reduced_samples k = none) (hm : s.Xs_mu k = none)
    (hN : init_or_verify_N s rs true = .ok N) :
    add_resampled s k rs m = (none, addResampledState s k rs m N) := by
  rw [add_resampled]
  simp [hr, hm, hN]

theorem collect_mus_isSome (s : JKState K) (args : List K) (l : List ℚ)
    (h : collect_mus s args = .ok l) : ∀ k ∈ args, (s.Xs_mu k).isSome := by
  induction args generalizing l with
  | nil => simp
  | cons k ks ih =>
    intro q hq
    rw [collect_mus] at h
    cases hmk : s.Xs_mu k with
    | none => rw [hmk] at h; cases h
    | some m =>
      rw [hmk] at h
      cases ht : collect_mus s ks with
      | error e => rw [ht] at h; cases h
      | ok l' =>
        rcases List.mem_cons.mp hq with rfl | hmem
        · simp [hmk]
        · exact ih l' ht q hmem

theorem add_function_noop (s : JKState K) (k : K) (F : List ℚ → ℚ)
    (args : List K)
    (h : ¬((s.Xs_reduced_samples k).isNone ∧ (s.Xs_mu k).isNone)) :
    add_function s k F args = (none, s) := by
  rw [add_function, if_neg]
  simpa using h

theorem add_function_mus_err (s : JKState K) (k : K) (F : List ℚ → ℚ)
    (args : List K) (e : String)
    (hr : s.Xs_reduced_samples k = none) (hm : s.Xs_mu k = none)
    (hE : collect_mus s args = .error e) :
    add_function s k F args = (some e, s) := by
  rw [add_function]
  simp [hr, hm, hE]

theorem add_function_ok (s : JKState K) (k : K) (F : List ℚ → ℚ)
    (args : List K)
    (hr : s.Xs_reduced_samples k = none) (hm : s.Xs_mu k = none)
    (hargs : ∀ a ∈ args, (s.Xs_mu a).isSome ∧
      ∃ rs, s.Xs_reduced_samples a = some rs ∧ s.N_bins ≤ rs.length) :
    add_function s k F args = (none, addFunctionState s k F args) := by
  have hmus := collect_mus_ok s args fun a ha => (hargs a ha).1
  have hrows := build_rows_ok
    { s with Xs_mu := mapInsert s.Xs_mu k (F (args.map fun a => (s.Xs_mu a).getD 0)) }
    F args (List.range s.N_bins) (fun a ha => by
      obtain ⟨rs, hrs, hlen⟩ := (hargs a ha).2
      exact ⟨rs, hrs, fun i hi => lt_of_lt_of_le (List.mem_range.mp hi) hlen⟩)
  rw [add_function]
  simp only [hr, hm, Option.isNone_none, Bool.and_self, if_true, hmus]
  rw [hrows]
  rfl

theorem add_function_N_bins (s : JKState K) (k : K) (F : List ℚ → ℚ)
    (args : List K) :
    (add_function s k F args).2.N_bins = s.N_bins ∧
      (add_function s k F args).2.bin_size = s.bin_size := by
  rw [add_function]
  split
  · cases collect_mus s args with
    | error e => exact ⟨rfl, rfl⟩
    | ok l =>
      simp only
      split
      · exact ⟨rfl, rfl⟩
      · exact ⟨rfl, rfl⟩
  · exact ⟨rfl, rfl⟩

/-! ### Claim theorems -/

/-- Claim C1: for every store with bin size `b` and key `k` not present, a
successful `resample(k, xs)` stores exactly `len(xs) / b` replicates for
`k`, replicate `i` being `(sum(xs) - sum(xs[i*b .. (i+1)*b - 1])) / (len(xs) - b)`,
and the stored mean being `sum(xs) / len(xs)`; remainder samples beyond the
last full bin enter the mean but no replicate. -/
theorem C1_resample_correct (s : JKState K) (k : K) (xs : List ℚ)
    (hb : 0 < s.bin_size)
    (hr : s.Xs_reduced_samples k = none) (hm : s.Xs_mu k = none)
    (hok : (resample s k xs).1 = none) :
    ∃ rs, (resample s k xs).2.Xs_reduced_samples k = some rs ∧
      rs.length = xs.length / s.bin_size ∧
      (∀ i, i < xs.length / s.bin_size →
        rs.getD i 0 = (xs.sum - ((List.range s.bin_size).map
            fun j => xs.getD (i * s.bin_size + j) 0).sum)
          / ((xs.length : ℚ) - (s.bin_size : ℚ))) ∧
      (resample s k xs).2.Xs_mu k = some (xs.sum / (xs.length : ℚ)) := by
  cases hI : init_or_verify_N s xs false with
  | error e =>
    rw [resample_err s k xs e hr hm hI] at hok
    cases hok
  | ok N =>
    obtain ⟨hNval, hcase⟩ := init_ok_elim s xs false N hI
    simp only [Bool.false_eq_true, if_false] at hNval
    have h1N : 1 ≤ N := by
      rcases hcase with ⟨_, h2⟩ | ⟨h0, hEq⟩
      · exact Nat.le_of_succ_le h2
      · exact Nat.one_le_iff_ne_zero.mpr (by rw [hEq]; exact h0)
    have hble : s.bin_size ≤ xs.length := by
      have h2 := (Nat.le_div_iff_mul_le hb).mp (hNval ▸ h1N)
      simpa using h2
    rw [resample_ok s k xs N hr hm hI]
    refine ⟨red_samples xs s.bin_size N,
      by simp [resampleState], by simp [hNval], ?_,
      by simp [resampleState, sumLoop_eq_sum]⟩
    intro i hi
    have hiN : i < N := hNval ▸ hi
    have hget : (red_samples xs s.bin_size N).getD i 0
        = binLoop xs i s.bin_size (sumLoop xs)
          / ((xs.length - s.bin_size : ℕ) : ℚ) := by
      simp only [red_samples]
      rw [List.getD_eq_getElem?_getD, List.getElem?_map, List.getElem?_range hiN]
      rfl
    rw [hget, binLoop_eq, sumLoop_eq_sum, Nat.cast_sub hble]

/-- Witness for C1: the spec §8 scenario, raw data `[1,2,3,4,5,6]`,
bin size 1. -/
theorem C1_witness :
    (0 < (emptyJK 1 : JKState ℕ).bin_size ∧
      (resample (emptyJK 1 : JKState ℕ) 0 demoXs).1 = none) ∧
    ∃ rs, (resample (emptyJK 1 : JKState ℕ) 0 demoXs).2.Xs_reduced_samples 0
        = some rs ∧
      rs.length = demoXs.length / (emptyJK 1 : JKState ℕ).bin_size ∧
      (∀ i, i < demoXs.length / (emptyJK 1 : JKState ℕ).bin_size →
        rs.getD i 0 = (demoXs.sum - ((List.range (emptyJK 1 : JKState ℕ).bin_size).map
            fun j => demoXs.getD (i * (emptyJK 1 : JKState ℕ).bin_size + j) 0).sum)
          / ((demoXs.length : ℚ) - ((emptyJK 1 : JKState ℕ).bin_size : ℚ))) ∧
      (resample (emptyJK 1 : JKState ℕ) 0 demoXs).2.Xs_mu 0
        = some (demoXs.sum / (demoXs.length : ℚ)) :=
  ⟨⟨by decide, by decide⟩,
    C1_resample_correct (emptyJK 1) 0 demoXs (by decide) rfl rfl (by decide)⟩

/-- Claim C4: registering a fresh key validates/initializes the shared bin
count: with `N_bins` unset, `register_raw` sets it to `len/bin_size` when
that is `> 1` and otherwise throws the fewer-than-2-bins error; with it
set, the call throws unless `len/bin_size` matches; `register_resampled`
applies the same rules to `len(replicates)` with no division.  Every
failing call leaves the store (bin count and both maps) unchanged. -/
theorem C4_bin_count_rules (s : JKState K) (k : K) (xs : List ℚ) (m : ℚ)
    (hr : s.Xs_reduced_samples k = none) (hm : s.Xs_mu k = none) :
    (s.N_bins = 0 → 1 < xs.length / s.bin_size →
      (resample s k xs).1 = none ∧
        (resample s k xs).2.N_bins = xs.length / s.bin_size) ∧
    (s.N_bins = 0 → xs.length / s.bin_size ≤ 1 →
      resample s k xs
        = (some "trying to add dataset with less than 2 bins.", s)) ∧
    (s.N_bins ≠ 0 → xs.length / s.bin_size ≠ s.N_bins →
      resample s k xs
        = (some "trying to add dataset with different number of bins than already existing ones.", s)) ∧
    (s.N_bins ≠ 0 → xs.length / s.bin_size = s.N_bins →
      (resample s k xs).1 = none ∧ (resample s k xs).2.N_bins = s.N_bins) ∧
    (s.N_bins = 0 → 1 < xs.length →
      (add_resampled s k xs m).1 = none ∧
        (add_resampled s k xs m).2.N_bins = xs.length) ∧
    (s.N_bins = 0 → xs.length ≤ 1 →
      add_resampled s k xs m
        = (some "trying to add dataset with less than 2 bins.", s)) ∧
    (s.N_bins ≠ 0 → xs.length ≠ s.N_bins →
      add_resampled s k xs m
        = (some "trying to add dataset with different number of bins than already existing ones.", s)) ∧
    (s.N_bins ≠ 0 → xs.length = s.N_bins →
      (add_resampled s k xs m).1 = none ∧
        (add_resampled s k xs m).2.N_bins = s.N_bins) := by
  refine ⟨?_, ?_, ?_, ?_, ?_, ?_, ?_, ?_⟩
  · intro h0 hgt
    rw [resample_ok s k xs _ hr hm (init_unset_ok s xs false h0 (by simpa using hgt))]
    exact ⟨rfl, by simp [resampleState]⟩
  · intro h0 hle
    exact resample_err s k xs _ hr hm (init_unset_err s xs false h0 (by simpa using hle))
  · intro h0 hne
    exact resample_err s k xs _ hr hm (init_set_err s xs false h0 (by simpa using hne))
  · intro h0 heq
    rw [resample_ok s k xs _ hr hm (init_set_ok s xs false h0 (by simpa using heq))]
    exact ⟨rfl, rfl⟩
  · intro h0 hgt
    rw [add_resampled_ok s k xs m _ hr hm (init_unset_ok s xs true h0 (by simpa using hgt))]
    exact ⟨rfl, by simp [addResampledState]⟩
  · intro h0 hle
    exact add_resampled_err s k xs m _ hr hm (init_unset_err s xs true h0 (by simpa using hle))
  · intro h0 hne
    exact add_resampled_err s k xs m _ hr hm (init_set_err s xs true h0 (by simpa using hne))
  · intro h0 heq
    rw [add_resampled_ok s k xs m _ hr hm (init_set_ok s xs true h0 (by simpa using heq))]
    exact ⟨rfl, rfl⟩

/-- Witness for C4: a fresh store accepts 3 samples at bin size 1 and sets
`N_bins = 3`; the store `demoS` (with `N_bins = 6`) rejects a 4-sample
registration unchanged. -/
theorem C4_witness :
    ((resample (emptyJK 1 : JKState ℕ) 0 [1, 2, 3]).1 = none ∧
      (resample (emptyJK 1 : JKState ℕ) 0 [1, 2, 3]).2.N_bins
        = ([1, 2, 3] : List ℚ).length / (emptyJK 1 : JKState ℕ).bin_size) ∧
    resample demoS 1 [1, 2, 3, 4]
      = (some "trying to add dataset with different number of bins than already existing ones.", demoS) :=
  ⟨(C4_bin_count_rules (emptyJK 1) 0 [1, 2, 3] 0 rfl rfl).1 rfl (by decide),
    (C4_bin_count_rules demoS 1 [1, 2, 3, 4] 0 (by decide) (by decide)).2.2.1
      (by decide) (by decide)⟩

/-- Claim C5: any registration or composition over an already-present key is
a silent no-op: no error and the state (both maps and `N_bins`) is exactly
as before, regardless of the supplied samples, mean, function, or argument
keys. -/
theorem C5_duplicate_noop (s : JKState K) (k : K)
    (hmu : (s.Xs_mu k).isSome) (hred : (s.Xs_reduced_samples k).isSome) :
    (∀ xs, resample s k xs = (none, s)) ∧
    (∀ rs m, add_resampled s k rs m = (none, s)) ∧
    (∀ F args, add_function s k F args = (none, s)) := by
  have hni : ¬((s.Xs_reduced_samples k).isNone ∧ (s.Xs_mu k).isNone) := by
    rintro ⟨h1, _⟩
    rw [Option.isNone_iff_eq_none.mp h1] at hred
    simp at hred
  exact ⟨fun xs => resample_noop s k xs hni,
    fun rs m => add_resampled_noop s k rs m hni,
    fun F args => add_function_noop s k F args hni⟩

/-- Witness for C5: re-registering key 0 of `demoS` with mismatched data,
and composing over it with an absent argument key, both leave `demoS`
untouched without error. -/
theorem C5_witness :
    resample demoS 0 [] = (none, demoS) ∧
      add_resampled demoS 0 [] 0 = (none, demoS) ∧
      add_function demoS 0 (fun _ => 0) [5] = (none, demoS) :=
  ⟨(C5_duplicate_noop demoS 0 (by decide) (by decide)).1 [],
    (C5_duplicate_noop demoS 0 (by decide) (by decide)).2.1 [] 0,
    (C5_duplicate_noop demoS 0 (by decide) (by decide)).2.2 (fun _ => 0) [5]⟩

/-- Claim C7: `remove(k)` deletes both the mean and the replicate series of
`k` (a no-op when `k` is absent); afterwards `mu`, `sigma` and `samples`
on `k` fail, while every other key's stored data and `N_bins` are exactly
unchanged. -/
theorem C7_remove_frame (s : JKState K) (k : K) :
    (remove s k).Xs_mu k = none ∧
    (remove s k).Xs_reduced_samples k = none ∧
    (∃ e, mu (remove s k) k = .error e) ∧
    (∃ e, sigma (remove s k) k = .error e) ∧
    (∃ e, samples (remove s k) k = .error e) ∧
    (∀ q, q ≠ k → (remove s k).Xs_mu q = s.Xs_mu q ∧
      (remove s k).Xs_reduced_samples q = s.Xs_reduced_samples q) ∧
    (remove s k).N_bins = s.N_bins ∧
    (s.Xs_mu k = none → s.Xs_reduced_samples k = none → remove s k = s) := by
  refine ⟨by simp [remove], by simp [remove],
    ⟨"map::at", by simp [mu, remove]⟩,
    ⟨"map::at", by simp [sigma, remove]⟩,
    ⟨"map::at", by simp [samples, remove]⟩, ?_, rfl, ?_⟩
  · intro q hq
    exact ⟨mapErase_ne s.Xs_mu k q hq, mapErase_ne s.Xs_reduced_samples k q hq⟩
  · intro h1 h2
    have hmu' : mapErase s.Xs_mu k = s.Xs_mu := by
      funext q
      by_cases hq : q = k
      · subst hq; simp [h1]
      · exact mapErase_ne s.Xs_mu k q hq
    have hred' : mapErase s.Xs_reduced_samples k = s.Xs_reduced_samples := by
      funext q
      by_cases hq : q = k
      · subst hq; simp [h2]
      · exact mapErase_ne s.Xs_reduced_samples k q hq
    simp [remove, hmu', hred']

/-- Witness for C7: removing key 0 from `demoS` leaves key 5 untouched,
and removing an absent key from a fresh store is a no-op. -/
theorem C7_witness :
    (remove demoS 0).Xs_mu 5 = demoS.Xs_mu 5 ∧
      remove (emptyJK 1 : JKState ℕ) 3 = emptyJK 1 :=
  ⟨((C7_remove_frame demoS 0).2.2.2.2.2.1 5 (by decide)).1,
    (C7_remove_frame (emptyJK 1) 3).2.2.2.2.2.2.2 rfl rfl⟩

/-- Claim C3: composing a fresh `result_key` from registered argument keys
stores mean `F(mu(arg_1), …, mu(arg_n))` and replicate `i`
`F(samples(arg_1)[i], …, samples(arg_n)[i])` for `i < N_bins`; when some
argument key is absent from the store the call fails with an error and the
store is unchanged. -/
theorem C3_compose (s : JKState K) (Fkey : K) (F : List ℚ → ℚ) (args : List K)
    (hr : s.Xs_reduced_samples Fkey = none) (hm : s.Xs_mu Fkey = none)
    (hne : args ≠ []) :
    ((∀ a ∈ args, (s.Xs_mu a).isSome ∧
        ∃ rs, s.Xs_reduced_samples a = some rs ∧ rs.length = s.N_bins) →
      (add_function s Fkey F args).1 = none ∧
      (add_function s Fkey F args).2.Xs_mu Fkey
        = some (F (args.map fun a => (s.Xs_mu a).getD 0)) ∧
      (add_function s Fkey F args).2.Xs_reduced_samples Fkey
        = some ((List.range s.N_bins).map fun i =>
            F (args.map fun a => ((s.Xs_reduced_samples a).getD []).getD i 0))) ∧
    ((∃ a ∈ args, s.Xs_mu a = none ∧ s.Xs_reduced_samples a = none) →
      ∃ e, add_function s Fkey F args = (some e, s)) := by
  constructor
  · intro hargs
    rw [add_function_ok s Fkey F args hr hm (fun a ha => ⟨(hargs a ha).1, by
      obtain ⟨rs, h1, h2⟩ := (hargs a ha).2
      exact ⟨rs, h1, le_of_eq h2.symm⟩⟩)]
    exact ⟨rfl, by simp [addFunctionState],
      by simp [addFunctionState, F_jackknife_samples]⟩
  · intro habs
    obtain ⟨e, he⟩ := collect_mus_error s args (by
      obtain ⟨a, ha, h1, _⟩ := habs
      exact ⟨a, ha, h1⟩)
    exact ⟨e, add_function_mus_err s Fkey F args e hr hm he⟩

/-- Witness for C3: composing the list-sum over key 0 of `demoS` succeeds
with the propagated mean and replicates; composing over the absent key 9
fails and leaves `demoS` unchanged. -/
theorem C3_witness :
    ((add_function demoS 2 (fun l => l.sum) [0]).1 = none ∧
      (add_function demoS 2 (fun l => l.sum) [0]).2.Xs_mu 2
        = some (([0].map fun a => ((demoS.Xs_mu a).getD 0 : ℚ)).sum) ∧
      (add_function demoS 2 (fun l => l.sum) [0]).2.Xs_reduced_samples 2
        = some ((List.range demoS.N_bins).map fun i =>
            ([0].map fun a =>
              ((demoS.Xs_reduced_samples a).getD []).getD i 0).sum)) ∧
    ∃ e, add_function demoS 2 (fun l => l.sum) [9] = (some e, demoS) :=
  ⟨(C3_compose demoS 2 (fun l => l.sum) [0] (by decide) (by decide)
      (by decide)).1
      (by
        intro a ha
        rw [List.mem_singleton] at ha
        subst ha
        exact ⟨rfl, [4, 19/5, 18/5, 17/5, 16/5, 3], rfl, by decide⟩),
    (C3_compose demoS 2 (fun l => l.sum) [9] (by decide) (by decide)
      (by decide)).2 ⟨9, by decide, by decide, by decide⟩⟩

/-- Claim C2: for a registered key, `sigma` returns
`sqrt(((N_bins - 1)/N_bins) * sum_i (replicate_i - mean)^2)` over the
stored replicate series and mean; for a key with no replicate entry it
throws. -/
theorem sigma_registered (s : JKState K) (k : K) (m : ℚ) (rs : List ℚ)
    (hm : s.Xs_mu k = some m) (hrs : s.Xs_reduced_samples k = some rs) :
    sigma s k = .ok (Real.sqrt (((((s.N_bins - 1 : ℕ) : ℚ) / (s.N_bins : ℚ)) *
      ((rs.map fun d => (d - m) ^ 2).sum) : ℚ) : ℝ)) := by
  simp only [sigma, hrs, hm, sigmaLoop_some, Except.map, zero_add]

theorem C2_sigma (s : JKState K) (k : K) :
    (∀ m rs, s.Xs_mu k = some m → s.Xs_reduced_samples k = some rs →
      1 ≤ s.N_bins →
      sigma s k = .ok (Real.sqrt ((((s.N_bins : ℝ) - 1) / (s.N_bins : ℝ)) *
        ((rs.map fun r : ℚ => ((r : ℝ) - (m : ℝ)) ^ 2).sum)))) ∧
    (s.Xs_reduced_samples k = none → ∃ e, sigma s k = .error e) := by
  constructor
  · intro m rs hm hrs hN
    rw [sigma_registered s k m rs hm hrs]
    congr 1
    rw [Rat.cast_mul, Rat.cast_div, Rat.cast_natCast, Rat.cast_natCast,
      Nat.cast_sub hN, Nat.cast_one, Rat.cast_list_sum, List.map_map]
    have hfun : List.map (Rat.cast ∘ fun d : ℚ => (d - m) ^ 2) rs
        = List.map (fun r : ℚ => ((r : ℝ) - (m : ℝ)) ^ 2) rs :=
      List.map_congr_left fun a _ => by
        rw [Function.comp_apply, Rat.cast_pow, Rat.cast_sub]
    rw [hfun]
  · intro h
    exact ⟨"map::at", by simp [sigma, h]⟩

/-- Witness for C2: `sigma` of key 0 in `demoS` (`N_bins = 6`, mean `7/2`,
replicates as computed from `[1,2,3,4,5,6]`), and failure on the absent
key 9. -/
theorem C2_witness :
    sigma demoS 0
      = .ok (Real.sqrt ((((demoS.N_bins : ℝ) - 1) / (demoS.N_bins : ℝ)) *
        ((([4, 19/5, 18/5, 17/5, 16/5, 3] : List ℚ).map
          fun r : ℚ => ((r : ℝ) - ((7/2 : ℚ) : ℝ)) ^ 2).sum))) ∧
      ∃ e, sigma demoS 9 = .error e :=
  ⟨(C2_sigma demoS 0).1 (7/2) [4, 19/5, 18/5, 17/5, 16/5, 3]
      rfl rfl (by decide),
    (C2_sigma demoS 9).2 rfl⟩

/-- Claim C8: `jackknife(k, mu_X, sigma_X)` never throws: for a registered
key it returns `true` with the stored mean and the value `sigma(k)` would
return; for an absent key it returns `false` with no computation and no
assignment. -/
theorem C8_jackknife (s : JKState K) (k : K) :
    (∀ m rs, s.Xs_mu k = some m → s.Xs_reduced_samples k = some rs →
      ∃ v, jackknife s k = some (m, v) ∧ sigma s k = .ok v) ∧
    ((s.Xs_mu k = none ∨ s.Xs_reduced_samples k = none) →
      jackknife s k = none) := by
  constructor
  · intro m rs hm hrs
    refine ⟨Real.sqrt (((((s.N_bins - 1 : ℕ) : ℚ) / (s.N_bins : ℚ)) *
        ((rs.map fun d => (d - m) ^ 2).sum) : ℚ) : ℝ), ?_,
      sigma_registered s k m rs hm hrs⟩
    rw [jackknife, if_pos (by simp [hm, hrs])]
    simp [hm, hrs, foldl_add_f_eq]
  · intro h
    rw [jackknife, if_neg]
    rcases h with h | h <;> simp [h]

/-- Witness for C8: `jackknife` on the registered key 0 of `demoS` agrees
with `sigma`, and returns the failure flag on the absent key 9. -/
theorem C8_witness :
    (∃ v, jackknife demoS 0 = some (7/2, v) ∧ sigma demoS 0 = .ok v) ∧
      jackknife demoS 9 = none :=
  ⟨(C8_jackknife demoS 0).1 (7/2) [4, 19/5, 18/5, 17/5, 16/5, 3]
      rfl rfl,
    (C8_jackknife demoS 9).2 (Or.inl rfl)⟩

theorem add_function_fix_noop (s : JKState K) (k : K) {n : ℕ}
    (F : (Fin n → ℚ) → ℚ) (ks : Fin n → K)
    (h : ¬((s.Xs_reduced_samples k).isNone ∧ (s.Xs_mu k).isNone)) :
    add_function_fix s k F ks = (none, s) := by
  rw [add_function_fix, if_neg]
  simpa using h

theorem add_function_fix_ok (s : JKState K) (k : K) {n : ℕ}
    (F : (Fin n → ℚ) → ℚ) (ks : Fin n → K)
    (hr : s.Xs_reduced_samples k = none) (hm : s.Xs_mu k = none)
    (hargs : ∀ j, (s.Xs_mu (ks j)).isSome ∧
      ∃ rs, s.Xs_reduced_samples (ks j) = some rs ∧ s.N_bins ≤ rs.length) :
    add_function_fix s k F ks = (none, addFunctionFixState s k F ks) := by
  rw [add_function_fix, if_pos (by simp [hr, hm]),
    dif_pos (fun j => (hargs j).1),
    dif_pos (fun _ j => by
      obtain ⟨rs, h1, h2⟩ := (hargs j).2
      refine ⟨by simp [h1], ?_⟩
      rw [h1]
      simpa using h2)]

/-- Claim C9: for every arity `n ≥ 1`, calling `add_function` in the
vector-of-keys shape with a sequence-consuming function, and calling the
fixed-arity overload with the same `n` registered keys and the
corresponding `n`-parameter function, produce the same result (identical
stored mean and replicate series). -/
theorem C9_overload_equiv (s : JKState K) (Fkey : K) {n : ℕ}
    (F : (Fin n → ℚ) → ℚ) (G : List ℚ → ℚ) (ks : Fin n → K)
    (hn : 1 ≤ n)
    (hFG : ∀ g : Fin n → ℚ, G (List.ofFn g) = F g)
    (hreg : ∀ j, (s.Xs_mu (ks j)).isSome ∧
      ∃ rs, s.Xs_reduced_samples (ks j) = some rs ∧ rs.length = s.N_bins) :
    add_function s Fkey G (List.ofFn ks) = add_function_fix s Fkey F ks := by
  by_cases hg : (s.Xs_reduced_samples Fkey).isNone ∧ (s.Xs_mu Fkey).isNone
  · obtain ⟨h1, h2⟩ := hg
    rw [Option.isNone_iff_eq_none] at h1 h2
    have hargsL : ∀ a ∈ List.ofFn ks, (s.Xs_mu a).isSome ∧
        ∃ rs, s.Xs_reduced_samples a = some rs ∧ s.N_bins ≤ rs.length := by
      intro a ha
      obtain ⟨j, rfl⟩ := (List.mem_ofFn ks a).mp ha
      obtain ⟨hj1, rs, hj2, hj3⟩ := hreg j
      exact ⟨hj1, rs, hj2, le_of_eq hj3.symm⟩
    rw [add_function_ok s Fkey G (List.ofFn ks) h1 h2 hargsL,
      add_function_fix_ok s Fkey F ks h1 h2
        (fun j => by
          obtain ⟨hj1, rs, hj2, hj3⟩ := hreg j
          exact ⟨hj1, rs, hj2, le_of_eq hj3.symm⟩)]
    have hmu_eq : G ((List.ofFn ks).map fun a => (s.Xs_mu a).getD 0)
        = F fun j => (s.Xs_mu (ks j)).getD 0 := by
      rw [List.map_ofFn]
      exact hFG _
    have hrows_eq : F_jackknife_samples s G (List.ofFn ks) s.N_bins
        = fix_rows s F ks := by
      apply List.map_congr_left
      intro i _
      rw [List.map_ofFn]
      exact hFG _
    rw [show addFunctionState s Fkey G (List.ofFn ks)
        = addFunctionFixState s Fkey F ks by
      rw [addFunctionState, addFunctionFixState, hmu_eq, hrows_eq]]
  · rw [add_function_noop s Fkey G (List.ofFn ks) hg,
      add_function_fix_noop s Fkey F ks hg]

/-- Witness for C9: arity 1 over key 0 of `demoS`, with the head-taking
list function and the identity-like fixed-arity function. -/
theorem C9_witness :
    add_function demoS 3 (fun l => l.headD 0)
        (List.ofFn fun _ : Fin 1 => (0 : ℕ))
      = add_function_fix demoS 3 (fun g => g 0) (fun _ : Fin 1 => (0 : ℕ)) :=
  C9_overload_equiv demoS 3 (fun g => g 0) (fun l => l.headD 0)
    (fun _ : Fin 1 => (0 : ℕ)) (by decide)
    (fun g => by simp [List.ofFn_succ])
    (fun j => ⟨rfl, [4, 19/5, 18/5, 17/5, 16/5, 3], rfl, by decide⟩)

/-- Claim C10: once `N_bins` is set (nonzero), no operation — raw or
resampled registration, composition, or removal — ever changes it; in
particular a fresh key registered with a deviating bin count is rejected
with the store unchanged, even if all keys were removed first. -/
theorem C10_N_bins_persistent (s : JKState K) (hset : s.N_bins ≠ 0) :
    (∀ k xs, (resample s k xs).2.N_bins = s.N_bins) ∧
    (∀ k rs m, (add_resampled s k rs m).2.N_bins = s.N_bins) ∧
    (∀ k F args, (add_function s k F args).2.N_bins = s.N_bins) ∧
    (∀ k, (remove s k).N_bins = s.N_bins) ∧
    (∀ k xs, s.Xs_mu k = none → s.Xs_reduced_samples k = none →
      xs.length / s.bin_size ≠ s.N_bins →
      resample s k xs
        = (some "trying to add dataset with different number of bins than already existing ones.", s)) := by
  refine ⟨?_, ?_, fun k F args => (add_function_N_bins s k F args).1,
    fun k => rfl, ?_⟩
  · intro k xs
    by_cases hg : (s.Xs_reduced_samples k).isNone ∧ (s.Xs_mu k).isNone
    · obtain ⟨h1, h2⟩ := hg
      rw [Option.isNone_iff_eq_none] at h1 h2
      cases hI : init_or_verify_N s xs false with
      | error e => rw [resample_err s k xs e h1 h2 hI]
      | ok N =>
        rw [resample_ok s k xs N h1 h2 hI]
        obtain ⟨_, hc⟩ := init_ok_elim s xs false N hI
        rcases hc with ⟨h0, _⟩ | ⟨_, hEq⟩
        · exact absurd h0 hset
        · exact hEq
    · rw [resample_noop s k xs hg]
  · intro k rs m
    by_cases hg : (s.Xs_reduced_samples k).isNone ∧ (s.Xs_mu k).isNone
    · obtain ⟨h1, h2⟩ := hg
      rw [Option.isNone_iff_eq_none] at h1 h2
      cases hI : init_or_verify_N s rs true with
      | error e => rw [add_resampled_err s k rs m e h1 h2 hI]
      | ok N =>
        rw [add_resampled_ok s k rs m N h1 h2 hI]
        obtain ⟨_, hc⟩ := init_ok_elim s rs true N hI
        rcases hc with ⟨h0, _⟩ | ⟨_, hEq⟩
        · exact absurd h0 hset
        · exact hEq
    · rw [add_resampled_noop s k rs m hg]
  · intro k xs h1 h2 hne
    exact resample_err s k xs _ h2 h1
      (init_set_err s xs false hset (by simpa using hne))

/-- Witness for C10: removing the only key of `demoS` keeps `N_bins = 6`,
and a 3-sample registration into the store is rejected unchanged. -/
theorem C10_witness :
    (remove demoS 0).N_bins = demoS.N_bins ∧
      resample demoS 1 [1, 2, 3]
        = (some "trying to add dataset with different number of bins than already existing ones.", demoS) :=
  ⟨(C10_N_bins_persistent demoS (by decide)).2.2.2.1 0,
    (C10_N_bins_persistent demoS (by decide)).2.2.2.2 1 [1, 2, 3] rfl rfl
      (by decide)⟩

/-! ### Invariant preservation -/

theorem ClaimInv_insert (s : JKState K) (k : K) (N : ℕ) (v : ℚ)
    (rows : List ℚ) (hrows : rows.length = N)
    (hold : ∀ q, q ≠ k →
      ((s.Xs_mu q).isSome ↔ (s.Xs_reduced_samples q).isSome) ∧
        ∀ l, s.Xs_reduced_samples q = some l → l.length = N) :
    ∀ q, ((mapInsert s.Xs_mu k v q).isSome
        ↔ (mapInsert s.Xs_reduced_samples k rows q).isSome) ∧
      ∀ l, mapInsert s.Xs_reduced_samples k rows q = some l → l.length = N := by
  intro q
  by_cases hq : q = k
  · subst hq
    rw [mapInsert_self, mapInsert_self]
    exact ⟨by simp, fun l hl => by cases hl; exact hrows⟩
  · rw [mapInsert_ne s.Xs_mu k q v hq,
      mapInsert_ne s.Xs_reduced_samples k q rows hq]
    exact hold q hq

theorem ClaimInv_old (s : JKState K) (k : K) (N : ℕ) (h : InvS s)
    (hc : s.N_bins = 0 ∧ 2 ≤ N ∨ s.N_bins ≠ 0 ∧ N = s.N_bins) :
    ∀ q, q ≠ k →
      ((s.Xs_mu q).isSome ↔ (s.Xs_reduced_samples q).isSome) ∧
        ∀ l, s.Xs_reduced_samples q = some l → l.length = N := by
  obtain ⟨hempty, hinv⟩ := h
  intro q _
  refine ⟨(hinv q).1, fun l hl => ?_⟩
  rcases hc with ⟨h0, _⟩ | ⟨_, hEq⟩
  · rw [(hempty h0 q).2] at hl
    cases hl
  · rw [hEq]
    exact (hinv q).2 l hl

theorem InvS_resample (s : JKState K) (k : K) (xs : List ℚ) (h : InvS s) :
    InvS (resample s k xs).2 := by
  by_cases hg : (s.Xs_reduced_samples k).isNone ∧ (s.Xs_mu k).isNone
  · obtain ⟨h1, h2⟩ := hg
    rw [Option.isNone_iff_eq_none] at h1 h2
    cases hI : init_or_verify_N s xs false with
    | error e => rw [resample_err s k xs e h1 h2 hI]; exact h
    | ok N =>
      rw [resample_ok s k xs N h1 h2 hI]
      obtain ⟨hNval, hc⟩ := init_ok_elim s xs false N hI
      have hN0 : N ≠ 0 := by
        rcases hc with ⟨_, hge⟩ | ⟨hne, hEq⟩
        · exact Nat.one_le_iff_ne_zero.mp (Nat.le_of_succ_le hge)
        · rw [hEq]; exact hne
      exact ⟨fun hcontra => (hN0 hcontra).elim,
        ClaimInv_insert s k N _ _ (by simp) (ClaimInv_old s k N h hc)⟩
  · rw [resample_noop s k xs hg]
    exact h

theorem InvS_add_resampled (s : JKState K) (k : K) (rs0 : List ℚ) (m : ℚ)
    (h : InvS s) : InvS (add_resampled s k rs0 m).2 := by
  by_cases hg : (s.Xs_reduced_samples k).isNone ∧ (s.Xs_mu k).isNone
  · obtain ⟨h1, h2⟩ := hg
    rw [Option.isNone_iff_eq_none] at h1 h2
    cases hI : init_or_verify_N s rs0 true with
    | error e => rw [add_resampled_err s k rs0 m e h1 h2 hI]; exact h
    | ok N =>
      rw [add_resampled_ok s k rs0 m N h1 h2 hI]
      obtain ⟨hNval, hc⟩ := init_ok_elim s rs0 true N hI
      have hN0 : N ≠ 0 := by
        rcases hc with ⟨_, hge⟩ | ⟨hne, hEq⟩
        · exact Nat.one_le_iff_ne_zero.mp (Nat.le_of_succ_le hge)
        · rw [hEq]; exact hne
      exact ⟨fun hcontra => (hN0 hcontra).elim,
        ClaimInv_insert s k N _ _ (by simpa using hNval.symm)
          (ClaimInv_old s k N h hc)⟩
  · rw [add_resampled_noop s k rs0 m hg]
    exact h

theorem InvS_add_function (s : JKState K) (k : K) (F : List ℚ → ℚ)
    (args : List K) (hne : args ≠ []) (h : InvS s) :
    InvS (add_function s k F args).2 := by
  by_cases hg : (s.Xs_reduced_samples k).isNone ∧ (s.Xs_mu k).isNone
  · obtain ⟨h1, h2⟩ := hg
    rw [Option.isNone_iff_eq_none] at h1 h2
    obtain ⟨hempty, hinv⟩ := h
    cases hc : collect_mus s args with
    | error e => rw [add_function_mus_err s k F args e h1 h2 hc]; exact ⟨hempty, hinv⟩
    | ok l =>
      have hpres := collect_mus_isSome s args l hc
      obtain ⟨a, ha⟩ := List.exists_mem_of_ne_nil args hne
      have hN0 : s.N_bins ≠ 0 := by
        intro h0
        have hnone := (hempty h0 a).1
        have hsome := hpres a ha
        rw [hnone] at hsome
        simp at hsome
      have hargs2 : ∀ a' ∈ args, (s.Xs_mu a').isSome ∧
          ∃ rs, s.Xs_reduced_samples a' = some rs ∧ s.N_bins ≤ rs.length := by
        intro a' ha'
        have hs1 := hpres a' ha'
        have hs2 := (hinv a').1.mp hs1
        obtain ⟨rs, hrs⟩ := Option.isSome_iff_exists.mp hs2
        exact ⟨hs1, rs, hrs, le_of_eq ((hinv a').2 rs hrs).symm⟩
      rw [add_function_ok s k F args h1 h2 hargs2]
      exact ⟨fun hcontra => (hN0 hcontra).elim,
        ClaimInv_insert s k s.N_bins _ _ (by simp) (fun q _ => hinv q)⟩
  · rw [add_function_noop s k F args hg]
    exact h

theorem InvS_remove (s : JKState K) (k : K) (h : InvS s) :
    InvS (remove s k) := by
  obtain ⟨hempty, hinv⟩ := h
  constructor
  · intro h0 q
    obtain ⟨e1, e2⟩ := hempty h0 q
    by_cases hq : q = k
    · subst hq
      exact ⟨by simp [remove], by simp [remove]⟩
    · exact ⟨by rw [show (remove s k).Xs_mu q = s.Xs_mu q from
          mapErase_ne s.Xs_mu k q hq]; exact e1,
        by rw [show (remove s k).Xs_reduced_samples q = s.Xs_reduced_samples q from
          mapErase_ne s.Xs_reduced_samples k q hq]; exact e2⟩
  · intro q
    by_cases hq : q = k
    · refine ⟨by simp [remove, hq], fun rs hrs => ?_⟩
      rw [show (remove s k).Xs_reduced_samples q = none from by simp [remove, hq]] at hrs
      cases hrs
    · rw [show (remove s k).Xs_mu q = s.Xs_mu q from
          mapErase_ne s.Xs_mu k q hq,
        show (remove s k).Xs_reduced_samples q = s.Xs_reduced_samples q from
          mapErase_ne s.Xs_reduced_samples k q hq]
      exact hinv q

theorem invS_of_reachablePos (s : JKState K) (h : ReachablePos s) : InvS s := by
  induction h with
  | init bs =>
    exact ⟨fun _ q => ⟨rfl, rfl⟩,
      fun q => ⟨by simp [emptyJK], fun rs hrs => by cases hrs⟩⟩
  | raw s k xs _ ih => exact InvS_resample s k xs ih
  | res s k rs m _ ih => exact InvS_add_resampled s k rs m ih
  | comp s k F args hne _ ih => exact InvS_add_function s k F args hne ih
  | rem s k _ ih => exact InvS_remove s k ih

/-- Counterexample to C6 as stated: the reachable state `cex2` — built by
`add_function` over an *empty* argument-key list on a fresh store (which
stores key 0 with an empty replicate series while `N_bins` is still
unset) followed by a raw registration that sets `N_bins = 2` — has key 0
present in both maps but with a replicate series of length 0 ≠ `N_bins`. -/
theorem C6_counterexample : Reachable cex2 ∧ ¬ ClaimInv cex2 := by
  constructor
  · have h0 : Reachable (emptyJK 1 : JKState ℕ) := Reachable.init 1
    have h1 : Reachable cex1 :=
      Reachable.comp (emptyJK 1) 0 (fun _ => 0) [] h0
    exact Reachable.raw cex1 1 [1, 2] h1
  · intro h
    have hred : cex2.Xs_reduced_samples 0 = some [] := by decide
    have hN : cex2.N_bins = 2 := by decide
    have hlen := (h 0).2 [] hred
    rw [hN] at hlen
    cases hlen

/-- Claim C6 (amended): in every store state reachable by sequences of
`register_raw`, `register_resampled`, `remove`, and `compose_function`
calls that supply at least one argument key, each stored key has both a
mean and a replicate series of length `N_bins`, or has neither. -/
theorem C6_amended_invariant (s : JKState K) (h : ReachablePos s) :
    ClaimInv s :=
  (invS_of_reachablePos s h).2

/-- Witness for C6 (amended): the state reached by resampling
`[1, 2, 3]` into a fresh store satisfies the invariant. -/
theorem C6_witness :
    ReachablePos ((resample (emptyJK 1 : JKState ℕ) 0 [1, 2, 3]).2) ∧
      ClaimInv ((resample (emptyJK 1 : JKState ℕ) 0 [1, 2, 3]).2) := by
  have h : ReachablePos ((resample (emptyJK 1 : JKState ℕ) 0 [1, 2, 3]).2) :=
    ReachablePos.raw (emptyJK 1) 0 [1, 2, 3] (ReachablePos.init 1)
  exact ⟨h, C6_amended_invariant _ h⟩

end JackknifeAnalyzer
